import Mathlib

/- The Batteries rational-number operations are irreducible by default,
which keeps `decide` from evaluating concrete scores; restore the
definitional transparency they have in the kernel. -/
attribute [local semireducible] Rat.add Rat.mul Rat.sub Rat.inv

deriving instance DecidableEq for Except

/-!
Verification of the research-helper screening pipeline and workflow manager.

The definitions below are shallow embeddings of
`deep_researcher/research_agents/abstract_screening_agent.py`
(methodology classifier, relevance scorer, theme extractor, batched
screening engine) and `deep_researcher/workflow_manager.py`
(checkpointed workflow state machine).

Python floats are modelled by exact rationals (`Rat`): every numeric
value that occurs in the screening pipeline (`k / n * 2` for `k ≤ n ≤`
the keyword-list length, integer offsets, `v / 3`, and the constants
`0.25, 0.5, 0.75, 1.5, 2.5`) is such that all comparisons performed by
the code give the same result under IEEE doubles and under exact
rational arithmetic, because the only non-representable quotients are
at distance at least `1 / (2 n)` from every decision boundary while the
float error is below `2^-50`.
-/

namespace ResearchHelper

/-! ## String helpers

Python's `needle in haystack` substring test and `str.split()` are
modelled on the underlying character lists. -/

/-- Does the first list occur as a prefix of the second?  (Char lists.) -/
def charsStartsWith : List Char → List Char → Bool
  | [], _ => true
  | _ :: _, [] => false
  | a :: as, b :: bs => a == b && charsStartsWith as bs

/-- Does `needle` occur as a contiguous sublist of `hay`?
Model of Python's `needle in hay` on strings. -/
def charsContains (needle : List Char) : List Char → Bool
  | [] => charsStartsWith needle []
  | c :: cs => charsStartsWith needle (c :: cs) || charsContains needle cs

/-- Python `needle in hay` (substring containment). -/
def strContains (hay needle : String) : Bool :=
  charsContains needle.data hay.data

/-- Number of (possibly overlapping) occurrences of `needle` in `hay`;
used only to state the spec's occurrence-count reading of the
methodology classifier. -/
def charsCountOcc (needle : List Char) : List Char → Nat
  | [] => 0
  | c :: cs => (if charsStartsWith needle (c :: cs) then 1 else 0) + charsCountOcc needle cs

/-- Occurrence count of `needle` in `hay` (for the spec-side classifier). -/
def strCountOcc (hay needle : String) : Nat :=
  charsCountOcc needle.data hay.data

/-- Python `str.lower()` (per-character lowercasing; the inputs of
interest are ASCII, where the two agree).  Implemented on the character
list so that the kernel can evaluate it. -/
def strToLower (s : String) : String :=
  ⟨s.data.map Char.toLower⟩

/-- Helper for `splitWords`: accumulate the current (reversed) word. -/
def wordsAux (cur : List Char) : List Char → List String
  | [] => if cur.isEmpty then [] else [String.mk cur.reverse]
  | c :: cs =>
    if c.isWhitespace then
      if cur.isEmpty then wordsAux [] cs else String.mk cur.reverse :: wordsAux [] cs
  else wordsAux (c :: cur) cs

/-- Python `text.split()`: split on whitespace runs, dropping empty pieces. -/
def splitWords (text : String) : List String :=
  wordsAux [] text.data

/-! ## Enums (`RelevanceScore`, `MethodologyType`) -/

/-- `RelevanceScore` enum of the source. -/
inductive RelevanceScore where
  | HIGH
  | MEDIUM
  | LOW
  | IRRELEVANT
  deriving DecidableEq, Repr

/-- `RelevanceScore.value` in the source: HIGH = 3, MEDIUM = 2, LOW = 1,
IRRELEVANT = 0. -/
def RelevanceScore.value : RelevanceScore → Nat
  | .HIGH => 3
  | .MEDIUM => 2
  | .LOW => 1
  | .IRRELEVANT => 0

/-- `RelevanceScore.name` (used in the `rationale` string). -/
def RelevanceScore.enumName : RelevanceScore → String
  | .HIGH => "HIGH"
  | .MEDIUM => "MEDIUM"
  | .LOW => "LOW"
  | .IRRELEVANT => "IRRELEVANT"

/-- `MethodologyType` enum of the source, in declaration order. -/
inductive MethodologyType where
  | EXPERIMENTAL
  | THEORETICAL
  | REVIEW
  | CASE_STUDY
  | SURVEY
  | META_ANALYSIS
  | OTHER
  deriving DecidableEq, Repr

/-- `MethodologyType.value` (the string payload of the Python enum). -/
def MethodologyType.value : MethodologyType → String
  | .EXPERIMENTAL => "experimental"
  | .THEORETICAL => "theoretical"
  | .REVIEW => "review"
  | .CASE_STUDY => "case_study"
  | .SURVEY => "survey"
  | .META_ANALYSIS => "meta_analysis"
  | .OTHER => "other"

/-- The `methodology_keywords` dict of `evaluate_methodology`; `OTHER`
has no trigger phrases (it is absent from the dict, so its score stays 0). -/
def methodology_keywords : MethodologyType → List String
  | .EXPERIMENTAL => ["experiment", "trial", "measurement"]
  | .THEORETICAL => ["theory", "framework", "model"]
  | .REVIEW => ["review", "survey", "overview"]
  | .CASE_STUDY => ["case study", "case-study", "case analysis"]
  | .SURVEY => ["survey", "questionnaire", "interview"]
  | .META_ANALYSIS => ["meta-analysis", "meta analysis", "systematic review"]
  | .OTHER => []

/-- Iteration order of `MethodologyType` (Python dict/enum declaration
order), which is also the iteration order of the `scores` dict. -/
def methodologyOrder : List MethodologyType :=
  [.EXPERIMENTAL, .THEORETICAL, .REVIEW, .CASE_STUDY, .SURVEY, .META_ANALYSIS, .OTHER]

/-- Score of one category in `evaluate_methodology`: the inner loop adds
1 for each trigger phrase of the category that occurs in the lowered
abstract, i.e. it counts the *phrases that are present*, not their
occurrences. -/
def catScore (lowerAbstract : String) (m : MethodologyType) : Nat :=
  (methodology_keywords m).countP (fun k => strContains lowerAbstract k)

/-- `evaluate_methodology` from `abstract_screening_agent.py` (lines
97-123): lower-case the abstract, score every category, return `OTHER`
when the maximum is 0 and otherwise the first category (in declaration
order) achieving the maximum. -/
def evaluate_methodology (abstract : String) : MethodologyType :=
  let lower := strToLower abstract
  let scores := methodologyOrder.map (fun m => (m, catScore lower m))
  let maxScore := (scores.map (fun p => p.2)).foldl Nat.max 0
  if maxScore == 0 then .OTHER
  else ((scores.filter (fun p => p.2 == maxScore)).map (fun p => p.1)).headD .OTHER

/-- Modelled from the spec's words for claim C2 only (a refinement
comparison point, not a translation of the source): per-category score
is the total number of substring occurrences of the category's trigger
phrases in the lowered abstract. -/
def specOccScore (lowerAbstract : String) (m : MethodologyType) : Nat :=
  ((methodology_keywords m).map (fun k => strCountOcc lowerAbstract k)).sum

/-- Modelled from the spec's words for claim C2 only: the classifier the
spec describes, with occurrence-count scores instead of phrase-presence
scores. -/
def evaluateMethodologySpecOcc (abstract : String) : MethodologyType :=
  let lower := strToLower abstract
  let scores := methodologyOrder.map (fun m => (m, specOccScore lower m))
  let maxScore := (scores.map (fun p => p.2)).foldl Nat.max 0
  if maxScore == 0 then .OTHER
  else ((scores.filter (fun p => p.2 == maxScore)).map (fun p => p.1)).headD .OTHER

/-! ## Screening criteria and the relevance scorer -/

/-- `ScreeningCriteria` (pydantic model).  The optional `min_date`,
`max_date` and `custom_criteria` fields are never read by any of the
functions modelled here and are omitted. -/
structure ScreeningCriteria where
  required_keywords : List String
  excluded_keywords : List String
  methodology_types : List MethodologyType
  min_relevance_score : RelevanceScore

/-- One keyword test of `calculate_relevance_score`:
`keyword.lower() in abstract_lower or keyword.lower() in title_lower`. -/
def keywordFound (abstractLower titleLower keyword : String) : Bool :=
  strContains abstractLower (strToLower keyword) || strContains titleLower (strToLower keyword)

/-- The running point total of `calculate_relevance_score` (lines
125-152): `score += keyword_ratio * 2`, `score -= 1` per excluded
keyword found, `score += 1` on a methodology match.  The paper dict's
`title` and `abstract` entries are the two string arguments. -/
def relevancePoints (title abstract : String) (c : ScreeningCriteria) : Rat :=
  let al := strToLower abstract
  let tl := strToLower title
  let requiredFound : Nat :=
    c.required_keywords.foldl (fun n k => if keywordFound al tl k then n + 1 else n) 0
  let kwFraction : Rat :=
    if c.required_keywords.isEmpty then 1
    else (requiredFound : Rat) / (c.required_keywords.length : Rat)
  let s1 : Rat := 0 + kwFraction * 2
  let s2 := c.excluded_keywords.foldl (fun s k => if keywordFound al tl k then s - 1 else s) s1
  if c.methodology_types.contains (evaluate_methodology abstract) then s2 + 1 else s2

/-- `calculate_relevance_score` (lines 125-161): point total, then the
tier bucketing `>= 2.5 / >= 1.5 / >= 0.5 / else`. -/
def calculate_relevance_score (title abstract : String) (c : ScreeningCriteria) : RelevanceScore :=
  let score := relevancePoints title abstract c
  if score ≥ (5 : Rat) / 2 then .HIGH
  else if score ≥ (3 : Rat) / 2 then .MEDIUM
  else if score ≥ (1 : Rat) / 2 then .LOW
  else .IRRELEVANT

/-! ## Screening results, stable in-batch sorting, ranks, statistics -/

/-- `ScreeningResult` (pydantic model of the tool path).  The
`inclusion_criteria` dict always holds exactly the two keys built at
lines 222-226; they are modelled as the two boolean fields. -/
structure ScreeningResult where
  relevance_score : Rat
  meets_relevance_threshold : Bool
  has_required_methodology : Bool
  priority_rank : Nat
  rationale : String
  deriving DecidableEq, Repr

/-- Construction of one `ScreeningResult` inside the batch loop of
`screen_abstracts` (lines 214-230): the relevance score is normalised by
the maximal `RelevanceScore.value`, which is 3. -/
def mkResultFrom (c : ScreeningCriteria) (rel : RelevanceScore) (meth : MethodologyType) :
    ScreeningResult :=
  { relevance_score := (rel.value : Rat) / 3
    meets_relevance_threshold := decide (c.min_relevance_score.value ≤ rel.value)
    has_required_methodology := c.methodology_types.contains meth
    priority_rank := 1
    rationale := "Relevance score: " ++ rel.enumName ++ ", Methodology: " ++ meth.value }

/-- The sort order of `screening_results.sort(key=..., reverse=True)`:
descending by `relevance_score`. -/
def scoreGE (a b : ScreeningResult) : Prop :=
  b.relevance_score ≤ a.relevance_score

instance : DecidableRel scoreGE := fun a b =>
  inferInstanceAs (Decidable (b.relevance_score ≤ a.relevance_score))

instance : IsTotal ScreeningResult scoreGE :=
  ⟨fun a b => le_total b.relevance_score a.relevance_score⟩

instance : IsTrans ScreeningResult scoreGE :=
  ⟨fun _ _ _ h1 h2 => le_trans h2 h1⟩

/-- Python's `list.sort` is a stable sort, and with `reverse=True` it is
the stable descending sort; a stable sort's output is uniquely
determined, and `List.insertionSort` realises it (stability is proved
below as `filter_insertionSort_eq`). -/
def sortResults (l : List ScreeningResult) : List ScreeningResult :=
  List.insertionSort scoreGE l

/-- The rank-assignment loop `for rank, result in enumerate(results, 1):
result.priority_rank = rank` (lines 234-235), started at `n`. -/
def assignRanksFrom : Nat → List ScreeningResult → List ScreeningResult
  | _, [] => []
  | n, r :: rs => { r with priority_rank := n } :: assignRanksFrom (n + 1) rs

/-- The `batch_statistics` dict (lines 245-255), keyed on the normalised
relevance scores. -/
structure BatchStatistics where
  total_papers : Nat
  high_relevance : Nat
  medium_relevance : Nat
  low_relevance : Nat
  irrelevant : Nat
  deriving DecidableEq, Repr

/-- Batch statistics of `screen_abstracts` (lines 245-255). -/
def mkStats (rs : List ScreeningResult) : BatchStatistics :=
  { total_papers := rs.length
    high_relevance := rs.countP (fun r => decide ((3 : Rat) / 4 ≤ r.relevance_score))
    medium_relevance := rs.countP (fun r =>
      decide ((1 : Rat) / 2 ≤ r.relevance_score ∧ r.relevance_score < (3 : Rat) / 4))
    low_relevance := rs.countP (fun r =>
      decide ((1 : Rat) / 4 ≤ r.relevance_score ∧ r.relevance_score < (1 : Rat) / 2))
    irrelevant := rs.countP (fun r => decide (r.relevance_score < (1 : Rat) / 4)) }

/-! ## Theme extraction (`identify_themes`, lines 163-199) -/

/-- `ThemeIdentification` (pydantic model). -/
structure ThemeIdentification where
  theme_name : String
  keywords : List String
  frequency : Nat
  papers : List String
  confidence : Rat
  deriving DecidableEq, Repr

/-- The value type of the `themes` dict of `identify_themes`. -/
structure ThemeData where
  count : Nat
  papers : List String
  keywords : List String
  deriving DecidableEq, Repr

/-- One step of the word loop of `identify_themes` (lines 174-185) on
the insertion-ordered `themes` dict, for a word already known to be
significant: a fresh word is appended with count 1; a known word's count
is bumped and the paper id appended if it is new. -/
def updateTheme (w id : String) (th : List (String × ThemeData)) : List (String × ThemeData) :=
  if th.any (fun p => p.1 == w) then
    th.map (fun p =>
      if p.1 == w then
        (p.1, { p.2 with
                  count := p.2.count + 1
                  papers := if p.2.papers.contains id then p.2.papers else p.2.papers ++ [id] })
      else p)
  else th ++ [(w, { count := 1, papers := [id], keywords := [w] })]

/-- Paper dicts as consumed by the heuristic screening path: the three
keys that `calculate_relevance_score`, `evaluate_methodology` and
`identify_themes` read. -/
structure Paper where
  arxiv_id : String
  title : String
  abstract : String
  deriving DecidableEq, Repr

/-- The per-paper body of the `identify_themes` loop: split
`"{title} {abstract}".lower()` into words and accumulate the
significant ones (length > 4). -/
def addPaperWords (th : List (String × ThemeData)) (p : Paper) : List (String × ThemeData) :=
  (splitWords (strToLower (p.title ++ " " ++ p.abstract))).foldl
    (fun acc w => if w.length > 4 then updateTheme w p.arxiv_id acc else acc) th

/-- Descending order by `frequency` used for the final
`sorted(theme_objects, key=lambda x: x.frequency, reverse=True)`. -/
def themeGE (a b : ThemeIdentification) : Prop :=
  b.frequency ≤ a.frequency

instance : DecidableRel themeGE := fun a b =>
  inferInstanceAs (Decidable (b.frequency ≤ a.frequency))

instance : IsTotal ThemeIdentification themeGE :=
  ⟨fun a b => Nat.le_total b.frequency a.frequency⟩

instance : IsTrans ThemeIdentification themeGE :=
  ⟨fun _ _ _ h1 h2 => le_trans h2 h1⟩

/-- The post-processing of `identify_themes` (lines 187-199): keep the
words with token count > 1, build `ThemeIdentification`s (confidence is
`min(count / len(papers), 1.0)`, written out as a conditional), sort by
frequency descending (stable) and keep the top 10.  `totalPapers` is
`len(papers)` of the call. -/
def themeObjects (th : List (String × ThemeData)) (totalPapers : Nat) :
    List ThemeIdentification :=
  let objs := th.filterMap (fun wd =>
    if wd.2.count > 1 then
      let raw : Rat := (wd.2.count : Rat) / (totalPapers : Rat)
      some { theme_name := wd.1
             keywords := wd.2.keywords
             frequency := wd.2.count
             papers := wd.2.papers
             confidence := if raw ≤ 1 then raw else 1 }
    else none)
  (List.insertionSort themeGE objs).take 10

/-- `identify_themes` (lines 163-199). -/
def identify_themes (papers : List Paper) : List ThemeIdentification :=
  themeObjects (papers.foldl addPaperWords []) papers.length

/-! ## The batched screening engine, on well-formed papers -/

/-- `ScreeningBatch` (pydantic model; the timestamp, a wall-clock
effect, is omitted). -/
structure ScreeningBatch where
  batch_id : String
  papers : List ScreeningResult
  batch_themes : List ThemeIdentification
  batch_statistics : BatchStatistics
  deriving DecidableEq, Repr

/-- The slicing loop `for i in range(0, len(papers), batch_size)`:
consecutive chunks of size `bs`, the last one possibly shorter.  (For
`bs = 0` Python raises before slicing; the pydantic validator enforces
`batch_size > 0`, and the model returns `[]`.) -/
def chunkList (bs : Nat) (l : List α) : List (List α) :=
  if bs = 0 then []
  else match l with
       | [] => []
       | x :: xs => (x :: xs).take bs :: chunkList bs ((x :: xs).drop bs)
termination_by l.length
decreasing_by simp_all; omega

/-- The screening result computed for one paper inside the batch loop
(lines 215-230). -/
def resultOf (c : ScreeningCriteria) (p : Paper) : ScreeningResult :=
  mkResultFrom c (calculate_relevance_score p.title p.abstract c)
    (evaluate_methodology p.abstract)

/-- The body of one batch iteration of `screen_abstracts`
(lines 210-257), on papers whose fields are all present; `n` is the
running `batch_number`. -/
def screenBatchWf (c : ScreeningCriteria) (n : Nat) (papers : List Paper) : ScreeningBatch :=
  let results := papers.map (resultOf c)
  let ranked := assignRanksFrom 1 (sortResults results)
  { batch_id := "batch_" ++ toString n
    papers := ranked
    batch_themes := identify_themes papers
    batch_statistics := mkStats ranked }

/-- All batches of `screen_abstracts` on well-formed papers, with the
running batch number. -/
def screenChunksWf (c : ScreeningCriteria) : Nat → List (List Paper) → List ScreeningBatch
  | _, [] => []
  | n, ch :: rest => screenBatchWf c n ch :: screenChunksWf c (n + 1) rest

/-- `screen_abstracts` restricted to well-formed papers (every field
present); the faithful fallible version is `screen_abstracts` below,
related by `screen_abstracts_wf`. -/
def screenAbstractsWf (papers : List Paper) (c : ScreeningCriteria) (bs : Nat) :
    List ScreeningBatch :=
  screenChunksWf c 1 (chunkList bs papers)

/-! ## The faithful fallible screening engine

The tool receives papers as JSON dicts, so any of the keys read by the
pipeline may be absent; accessing a missing key raises `KeyError`,
modelled by `Except String` carrying the missing key's name.
`screen_abstracts` itself installs no exception handler, so a raised
`KeyError` propagates out of the whole call. -/

/-- A paper dict as it arrives from JSON: each key the pipeline reads
may be missing. -/
structure RawPaper where
  arxiv_id : Option String
  title : Option String
  abstract : Option String
  deriving DecidableEq, Repr

/-- `paper[key]`: a missing key raises `KeyError(key)`. -/
def getKey (v : Option String) (key : String) : Except String String :=
  match v with
  | some s => Except.ok s
  | none => Except.error key

/-- A paper with every key the pipeline reads present. -/
def RawPaper.wellFormed (p : RawPaper) : Prop :=
  p.arxiv_id.isSome ∧ p.title.isSome ∧ p.abstract.isSome

instance (p : RawPaper) : Decidable p.wellFormed :=
  inferInstanceAs (Decidable (_ ∧ _ ∧ _))

/-- Injection of a well-formed paper into the dict representation. -/
def Paper.toRaw (p : Paper) : RawPaper :=
  { arxiv_id := some p.arxiv_id, title := some p.title, abstract := some p.abstract }

/-- `calculate_relevance_score` on a raw dict: lines 131-132 read
`paper['abstract']` and then `paper['title']`. -/
def calcRelevanceScoreE (p : RawPaper) (c : ScreeningCriteria) : Except String RelevanceScore := do
  let ab ← getKey p.abstract "abstract"
  let t ← getKey p.title "title"
  pure (calculate_relevance_score t ab c)

/-- The fallible word step of `identify_themes`: `paper['arxiv_id']` is
read only for significant words (length > 4), in both dict branches. -/
def addWordE (p : RawPaper) (acc : List (String × ThemeData)) (w : String) :
    Except String (List (String × ThemeData)) :=
  if w.length > 4 then do
    let id ← getKey p.arxiv_id "arxiv_id"
    pure (updateTheme w id acc)
  else pure acc

/-- The fallible per-paper step of `identify_themes`: the f-string at
line 170 reads `paper['title']` then `paper['abstract']`. -/
def addPaperWordsE (acc : List (String × ThemeData)) (p : RawPaper) :
    Except String (List (String × ThemeData)) := do
  let t ← getKey p.title "title"
  let ab ← getKey p.abstract "abstract"
  (splitWords (strToLower (t ++ " " ++ ab))).foldlM (addWordE p) acc

/-- `identify_themes` on raw dicts. -/
def identifyThemesE (papers : List RawPaper) : Except String (List ThemeIdentification) := do
  let th ← papers.foldlM addPaperWordsE []
  pure (themeObjects th papers.length)

/-- One batch iteration of `screen_abstracts` on raw dicts: score every
paper (line 215 also re-reads `paper['abstract']` for the methodology at
line 216), sort and rank, then extract batch themes. -/
def screenBatchE (c : ScreeningCriteria) (n : Nat) (papers : List RawPaper) :
    Except String ScreeningBatch := do
  let results ← papers.mapM (fun p => do
    let rel ← calcRelevanceScoreE p c
    let ab ← getKey p.abstract "abstract"
    pure (mkResultFrom c rel (evaluate_methodology ab)))
  let ranked := assignRanksFrom 1 (sortResults results)
  let themes ← identifyThemesE papers
  pure { batch_id := "batch_" ++ toString n
         papers := ranked
         batch_themes := themes
         batch_statistics := mkStats ranked }

/-- The batch loop of `screen_abstracts`: batches are processed in
order; a raised error aborts the call, discarding `all_batches`. -/
def screenChunksE (c : ScreeningCriteria) :
    Nat → List (List RawPaper) → Except String (List ScreeningBatch)
  | _, [] => Except.ok []
  | n, ch :: rest => do
    let b ← screenBatchE c n ch
    let bs ← screenChunksE c (n + 1) rest
    pure (b :: bs)

/-- `screen_abstracts` (lines 201-264): slice into batches and process
them in order.  There is no try/except anywhere in the function, so the
first `KeyError` aborts the entire call with no output. -/
def screen_abstracts (papers : List RawPaper) (c : ScreeningCriteria) (bs : Nat) :
    Except String (List ScreeningBatch) :=
  screenChunksE c 1 (chunkList bs papers)

/-! ## The workflow manager (`workflow_manager.py`)

The external agents (question formulation, keyword analysis, paper
search, abstract screening) are LLM/network collaborators that the spec
treats as abstract capability interfaces; they are parameters of the
model.  The `data` field of a checkpoint is dynamically typed in the
source (`Any`), used at the three `isinstance` shapes below. -/

/-- `ResearchQuestion` dataclass.  `context : Dict[str, Any]` is carried
as an uninterpreted association list (its values are never inspected by the
workflow manager). -/
structure ResearchQuestion where
  main_question : String
  sub_questions : List String
  context : List (String × String)
  validation_score : Rat
  user_approved : Bool
  deriving DecidableEq, Repr

/-- `SearchStrategy` dataclass. -/
structure SearchStrategy where
  keywords : List String
  combinations : List String
  constraints : List (String × String)
  user_approved : Bool
  deriving DecidableEq, Repr

/-- `PaperResult` dataclass. -/
structure PaperResult where
  paper_id : String
  title : String
  abstract : String
  metadata : List (String × String)
  relevance_score : Option Rat
  user_reviewed : Bool
  deriving DecidableEq, Repr

/-- The dynamic type of a checkpoint's `data` field: the three shapes
`modify_current_step` distinguishes with `isinstance` (a paper list is
stored both by the `papers` and the `screening` steps). -/
inductive StepData where
  | question (q : ResearchQuestion)
  | strategy (s : SearchStrategy)
  | papers (ps : List PaperResult)
  deriving DecidableEq, Repr

/-- `WorkflowState` dataclass (checkpoint); the wall-clock `timestamp`
is omitted. -/
structure WorkflowState where
  step : String
  data : StepData
  modified_by_user : Bool
  deriving DecidableEq, Repr

/-- The mutable state of `ResearchWorkflowManager`: the checkpoint
history and the current checkpoint. -/
structure WorkflowManager where
  history : List WorkflowState
  currentState : Option WorkflowState
  deriving DecidableEq, Repr

/-- A freshly constructed `ResearchWorkflowManager`. -/
def WorkflowManager.initial : WorkflowManager :=
  { history := [], currentState := none }

/-- `save_state`: build a checkpoint, make it current, append it to the
history, and return it. -/
def save_state (wm : WorkflowManager) (step : String) (data : StepData) :
    WorkflowState × WorkflowManager :=
  let st : WorkflowState := { step := step, data := data, modified_by_user := false }
  (st, { history := wm.history ++ [st], currentState := some st })

/-- The external collaborators invoked by the pipeline stages, as
abstract interfaces.  Each receives the current checkpoint's dynamic
`data`, exactly as the source passes `self.current_state.data`. -/
structure Agents where
  formulate : String → ResearchQuestion
  analyze : StepData → SearchStrategy
  search : StepData → List PaperResult
  screen : StepData → List PaperResult

/-- `start_workflow` = `formulate_questions`: call the question agent
and save a `"questions"` checkpoint. -/
def start_workflow (ag : Agents) (wm : WorkflowManager) (researchIdea : String) :
    WorkflowState × WorkflowManager :=
  save_state wm "questions" (.question (ag.formulate researchIdea))

/-- `continue_workflow`: dispatch on the current step name, run the next
stage, save its checkpoint; `None` when there is no current state or the
workflow is complete (step `"screening"`). -/
def continue_workflow (ag : Agents) (wm : WorkflowManager) :
    Option WorkflowState × WorkflowManager :=
  match wm.currentState with
  | none => (none, wm)
  | some st =>
    if st.step = "questions" then
      let r := save_state wm "keywords" (.strategy (ag.analyze st.data))
      (some r.1, r.2)
    else if st.step = "keywords" then
      let r := save_state wm "papers" (.papers (ag.search st.data))
      (some r.1, r.2)
    else if st.step = "papers" then
      let r := save_state wm "screening" (.papers (ag.screen st.data))
      (some r.1, r.2)
    else (none, wm)

/-- The values a `modifications` dict can carry at the places
`modify_current_step` reads them. -/
inductive ModValue where
  | str (v : String)
  | strList (v : List String)
  | num (v : Rat)
  deriving DecidableEq, Repr

/-- A `modifications : Dict[str, Any]` argument. -/
abbrev Modifications := List (String × ModValue)

/-- Dict lookup (first binding wins, as in a Python dict built from
these pairs). -/
def lookupMod (mods : Modifications) (key : String) : Option ModValue :=
  match mods.find? (fun kv => kv.1 == key) with
  | some kv => some kv.2
  | none => none

/-- `modifications.get(key, default)` at a string-valued field. -/
def getStr (mods : Modifications) (key : String) (dflt : String) : String :=
  match lookupMod mods key with
  | some (.str v) => v
  | _ => dflt

/-- `modifications.get(key, default)` at a string-list-valued field. -/
def getStrList (mods : Modifications) (key : String) (dflt : List String) : List String :=
  match lookupMod mods key with
  | some (.strList v) => v
  | _ => dflt

/-- The field-level patch `modify_current_step` applies to the current
checkpoint's dynamic payload (lines 77-89).  Keys other than the ones
read here are silently ignored. -/
def applyMods (data : StepData) (mods : Modifications) : StepData :=
  match data with
  | .question q =>
    .question { q with
                 main_question := getStr mods "main_question" q.main_question
                 sub_questions := getStrList mods "sub_questions" q.sub_questions }
  | .strategy s =>
    .strategy { s with
                 keywords := getStrList mods "keywords" s.keywords
                 combinations := getStrList mods "combinations" s.combinations }
  | .papers ps =>
    .papers (ps.map (fun p =>
      match lookupMod mods p.paper_id with
      | some (.num v) => { p with user_reviewed := true, relevance_score := some v }
      | some _ => { p with user_reviewed := true }
      | none => p))

/-- `modify_current_step` (lines 71-92): raises
`ValueError("No current state to modify")` when there is no current
state; otherwise patches the current checkpoint's payload in place,
sets `modified_by_user = True`, and returns the current checkpoint.  In
the source the checkpoint object is mutated, so the alias in
`history[-1]` changes with it; the model rebuilds both (after `start`,
`current` is always the last history entry). -/
def modify_current_step (wm : WorkflowManager) (mods : Modifications) :
    Except String (WorkflowState × WorkflowManager) :=
  match wm.currentState with
  | none => Except.error "No current state to modify"
  | some st =>
    let st' : WorkflowState :=
      { st with data := applyMods st.data mods, modified_by_user := true }
    Except.ok (st', { history := wm.history.dropLast ++ [st'], currentState := some st' })

/-- `go_back` (lines 94-101): with fewer than 2 history entries return
`None` and change nothing; otherwise pop the current checkpoint and make
the previous one current. -/
def go_back (wm : WorkflowManager) : Option WorkflowState × WorkflowManager :=
  if wm.history.length < 2 then (none, wm)
  else
    let h := wm.history.dropLast
    (h.getLast?, { history := h, currentState := h.getLast? })

/-! ## Generic lemmas: stable sorting and `Except` evaluation -/

/-- Stability of `List.insertionSort`: a class of pairwise-related
elements (for the sorts used here: elements with one fixed key value)
appears in the output in its input order. -/
theorem filter_insertionSort_eq (r : α → α → Prop) [DecidableRel r] (p : α → Bool)
    (hp : ∀ a b, p a = true → p b = true → r a b) (l : List α) :
    (List.insertionSort r l).filter p = l.filter p := by
  have hpair : (l.filter p).Pairwise r :=
    List.pairwise_of_forall_mem_list (fun a ha b hb =>
      hp a b (List.of_mem_filter ha) (List.of_mem_filter hb))
  have hsub : List.Sublist (l.filter p) (List.insertionSort r l) :=
    List.sublist_insertionSort hpair (List.filter_sublist l)
  have hidem : (l.filter p).filter p = l.filter p :=
    List.filter_eq_self.mpr (fun a ha => List.of_mem_filter ha)
  have hsub2 : List.Sublist (l.filter p) ((List.insertionSort r l).filter p) := by
    have := hsub.filter p
    rwa [hidem] at this
  have hlen : ((List.insertionSort r l).filter p).length = (l.filter p).length :=
    ((List.perm_insertionSort r l).filter p).length_eq
  exact (hsub2.eq_of_length hlen.symm).symm

/-- If every step of an `Except`-valued fold succeeds and computes `g`,
the fold succeeds and computes the pure fold of `g`. -/
theorem foldlM_ok {ε : Type u} {α β : Type u} (f : β → α → Except ε β) (g : β → α → β)
    (l : List α) (h : ∀ b : β, ∀ a ∈ l, f b a = Except.ok (g b a)) (b : β) :
    l.foldlM f b = Except.ok (l.foldl g b) := by
  induction l generalizing b with
  | nil => rfl
  | cons x xs ih =>
    rw [List.foldlM_cons, h b x (List.mem_cons_self x xs)]
    show xs.foldlM f (g b x) = _
    rw [ih (fun b a ha => h b a (List.mem_cons_of_mem _ ha)), List.foldl_cons]

/-- If every element of an `Except`-valued map succeeds and computes
`g`, the `mapM` succeeds and computes `map g`. -/
theorem mapM_ok {ε : Type u} {α β : Type u} (f : α → Except ε β) (g : α → β)
    (l : List α) (h : ∀ a ∈ l, f a = Except.ok (g a)) :
    l.mapM f = Except.ok (l.map g) := by
  induction l with
  | nil => rfl
  | cons x xs ih =>
    rw [List.mapM_cons, h x (List.mem_cons_self x xs),
      ih (fun a ha => h a (List.mem_cons_of_mem _ ha))]
    rfl

/-- If some element of an `Except`-valued map is doomed to fail, the
`mapM` fails. -/
theorem mapM_isOk_false {ε : Type u} {α β : Type u} (f : α → Except ε β) (P : α → Prop)
    (hf : ∀ a, P a → (f a).isOk = false) (l : List α) (hl : ∃ a ∈ l, P a) :
    (l.mapM f).isOk = false := by
  induction l with
  | nil => simp at hl
  | cons x xs ih =>
    rw [List.mapM_cons]
    rcases hl with ⟨a, ha, hPa⟩
    rcases List.mem_cons.mp ha with rfl | hmem
    · have := hf a hPa
      cases hfa : f a with
      | error e => rfl
      | ok v => rw [hfa] at this; simp [Except.isOk, Except.toBool] at this
    · cases hfx : f x with
      | error e => rfl
      | ok v =>
        have := ih ⟨a, hmem, hPa⟩
        cases hmx : xs.mapM f with
        | error e => rfl
        | ok vs => rw [hmx] at this; simp [Except.isOk, Except.toBool] at this

/-! ## Chunking lemmas -/

/-- The batches cover the input in order. -/
theorem chunkList_join (bs : Nat) (l : List α) (hbs : 1 ≤ bs) :
    (chunkList bs l).flatten = l := by
  induction l using chunkList.induct bs with
  | case1 l h0 => omega
  | case2 h0 => rw [chunkList.eq_def]; simp
  | case3 h0 x xs ih =>
    rw [chunkList.eq_def]
    simp only [if_neg h0, List.flatten_cons]
    rw [ih, List.take_append_drop]

/-- A batch is never empty and never longer than `batch_size`. -/
theorem chunkList_mem_length (bs : Nat) (l : List α) (hbs : 1 ≤ bs) :
    ∀ ch ∈ chunkList bs l, ch ≠ [] ∧ ch.length ≤ bs := by
  induction l using chunkList.induct bs with
  | case1 l h0 => omega
  | case2 h0 => rw [chunkList.eq_def]; simp
  | case3 h0 x xs ih =>
    rw [chunkList.eq_def]
    simp only [if_neg h0, List.mem_cons]
    rintro ch (rfl | hmem)
    · refine ⟨by simp [List.take_eq_nil_iff]; omega, by simp⟩
    · exact ih ch hmem

/-- Chunking is empty exactly on the empty list. -/
theorem chunkList_eq_nil_iff (bs : Nat) (l : List α) (hbs : 1 ≤ bs) :
    chunkList bs l = [] ↔ l = [] := by
  cases l with
  | nil => rw [chunkList.eq_def]; simp
  | cons x xs =>
    rw [chunkList.eq_def]
    simp only [if_neg (by omega : ¬bs = 0)]
    simp

/-- Every batch except the last has length exactly `batch_size`. -/
theorem chunkList_dropLast_length (bs : Nat) (l : List α) (hbs : 1 ≤ bs) :
    ∀ ch ∈ (chunkList bs l).dropLast, ch.length = bs := by
  induction l using chunkList.induct bs with
  | case1 l h0 => omega
  | case2 h0 => rw [chunkList.eq_def]; simp
  | case3 h0 x xs ih =>
    rw [chunkList.eq_def]
    simp only [if_neg h0]
    cases hrest : chunkList bs ((x :: xs).drop bs) with
    | nil => simp
    | cons c cs =>
      rw [List.dropLast_cons_of_ne_nil (by simp [hrest])]
      intro ch hch
      rcases List.mem_cons.mp hch with rfl | hmem
      · have hne : (x :: xs).drop bs ≠ [] := by
          intro hdrop
          rw [hdrop, chunkList.eq_def] at hrest
          simp at hrest
        have hlt : bs < (x :: xs).length := by
          by_contra hle
          exact hne (List.drop_eq_nil_of_le (by omega))
        simp only [List.length_take]
        omega
      · rw [← hrest] at hmem
        exact ih ch hmem

/-- Chunking commutes with `map`. -/
theorem chunkList_map (bs : Nat) (f : α → β) (l : List α) :
    chunkList bs (l.map f) = (chunkList bs l).map (List.map f) := by
  induction l using chunkList.induct bs with
  | case1 l h0 =>
    rw [chunkList.eq_def, chunkList.eq_def]
    simp [h0]
  | case2 h0 => rw [chunkList.eq_def, chunkList.eq_def]; simp
  | case3 h0 x xs ih =>
    conv_lhs => rw [chunkList.eq_def]
    conv_rhs => rw [chunkList.eq_def]
    simp only [List.map_cons, if_neg h0, List.map_take, List.map_drop]
    rw [← List.map_cons f x xs, ← ih]
    simp

/-! ## Bridging the fallible pipeline with its total restriction -/

/-- On a well-formed paper the fallible scorer succeeds with the total
scorer's value. -/
theorem calcRelevanceScoreE_toRaw (p : Paper) (c : ScreeningCriteria) :
    calcRelevanceScoreE p.toRaw c =
      Except.ok (calculate_relevance_score p.title p.abstract c) := rfl

/-- On well-formed papers the fallible theme extractor succeeds with
`identify_themes`. -/
theorem identifyThemesE_toRaw (papers : List Paper) :
    identifyThemesE (papers.map Paper.toRaw) =
      Except.ok (identify_themes papers) := by
  have hstep : ∀ th : List (String × ThemeData), ∀ raw ∈ papers.map Paper.toRaw,
      addPaperWordsE th raw =
        Except.ok (addPaperWords th { arxiv_id := raw.arxiv_id.getD ""
                                      title := raw.title.getD ""
                                      abstract := raw.abstract.getD "" }) := by
    intro th raw hraw
    rcases List.mem_map.mp hraw with ⟨p, _, rfl⟩
    show (splitWords (strToLower (p.title ++ " " ++ p.abstract))).foldlM
        (addWordE p.toRaw) th = _
    rw [foldlM_ok (addWordE p.toRaw)
      (fun acc w => if w.length > 4 then updateTheme w p.arxiv_id acc else acc) _ ?_ th]
    · rfl
    · intro acc w _
      unfold addWordE
      by_cases h4 : w.length > 4 <;> simp [h4] <;> rfl
  unfold identifyThemesE
  rw [foldlM_ok addPaperWordsE
    (fun th raw => addPaperWords th { arxiv_id := raw.arxiv_id.getD ""
                                      title := raw.title.getD ""
                                      abstract := raw.abstract.getD "" }) _ hstep []]
  show Except.ok _ = _
  congr 1
  unfold identify_themes
  rw [List.foldl_map]
  congr 1
  simp [List.length_map]

/-- On well-formed papers one fallible batch step succeeds with the
total batch step. -/
theorem screenBatchE_toRaw (c : ScreeningCriteria) (n : Nat) (papers : List Paper) :
    screenBatchE c n (papers.map Paper.toRaw) =
      Except.ok (screenBatchWf c n papers) := by
  unfold screenBatchE
  rw [mapM_ok _
    (fun raw => mkResultFrom c
      (calculate_relevance_score (raw.title.getD "") (raw.abstract.getD "") c)
      (evaluate_methodology (raw.abstract.getD ""))) _ ?_]
  · rw [show ((papers.map Paper.toRaw).map (fun raw => mkResultFrom c
        (calculate_relevance_score (raw.title.getD "") (raw.abstract.getD "") c)
        (evaluate_methodology (raw.abstract.getD "")))) = papers.map (fun p =>
        mkResultFrom c (calculate_relevance_score p.title p.abstract c)
          (evaluate_methodology p.abstract)) by
      rw [List.map_map]; rfl]
    show (do
      let themes ← identifyThemesE (papers.map Paper.toRaw)
      pure _ : Except String ScreeningBatch) = _
    rw [identifyThemesE_toRaw]
    rfl
  · intro raw hraw
    rcases List.mem_map.mp hraw with ⟨p, _, rfl⟩
    rfl

/-- On well-formed papers the fallible batch loop succeeds with the
total batch loop. -/
theorem screenChunksE_toRaw (c : ScreeningCriteria) (n : Nat) (chunks : List (List Paper)) :
    screenChunksE c n (chunks.map (List.map Paper.toRaw)) =
      Except.ok (screenChunksWf c n chunks) := by
  induction chunks generalizing n with
  | nil => rfl
  | cons ch rest ih =>
    show (do
      let b ← screenBatchE c n (ch.map Paper.toRaw)
      let bs ← screenChunksE c (n + 1) (rest.map (List.map Paper.toRaw))
      pure (b :: bs) : Except String (List ScreeningBatch)) = _
    rw [screenBatchE_toRaw, ih]
    rfl

/-- `screen_abstracts` on well-formed papers succeeds and computes
`screenAbstractsWf`. -/
theorem screen_abstracts_wf (papers : List Paper) (c : ScreeningCriteria) (bs : Nat) :
    screen_abstracts (papers.map Paper.toRaw) c bs =
      Except.ok (screenAbstractsWf papers c bs) := by
  unfold screen_abstracts screenAbstractsWf
  rw [chunkList_map, screenChunksE_toRaw]

/-! ## Error propagation through the fallible pipeline -/

/-- A paper that is malformed for the scoring stage: the `abstract` or
`title` key is missing. -/
def RawPaper.malformed (p : RawPaper) : Prop :=
  p.abstract = none ∨ p.title = none

/-- A failed first stage fails the whole `Except` bind. -/
theorem bind_isOk_false_left {ε α β : Type u} (x : Except ε α) (f : α → Except ε β)
    (h : x.isOk = false) : (x >>= f).isOk = false := by
  cases x with
  | error e => rfl
  | ok v => simp [Except.isOk, Except.toBool] at h

/-- A doomed second stage fails the whole `Except` bind. -/
theorem bind_isOk_false_right {ε α β : Type u} (x : Except ε α) (f : α → Except ε β)
    (h : ∀ v, x = Except.ok v → (f v).isOk = false) : (x >>= f).isOk = false := by
  cases x with
  | error e => rfl
  | ok v => exact h v rfl

/-- A malformed paper makes its whole batch fail. -/
theorem screenBatchE_isOk_false (c : ScreeningCriteria) (n : Nat) (papers : List RawPaper)
    (h : ∃ p ∈ papers, p.malformed) : (screenBatchE c n papers).isOk = false := by
  apply bind_isOk_false_left
  refine mapM_isOk_false _ RawPaper.malformed ?_ papers h
  intro p hp
  rcases hp with hab | ht
  · simp only [calcRelevanceScoreE, hab, getKey]
    rfl
  · rcases habs : p.abstract with _ | av
    · simp only [calcRelevanceScoreE, habs, getKey]
      rfl
    · simp only [calcRelevanceScoreE, habs, ht, getKey]
      rfl

/-- A malformed paper in any batch makes the whole batch loop fail. -/
theorem screenChunksE_isOk_false (c : ScreeningCriteria) :
    ∀ (n : Nat) (chunks : List (List RawPaper)),
    (∃ ch ∈ chunks, ∃ p ∈ ch, p.malformed) →
    (screenChunksE c n chunks).isOk = false := by
  intro n chunks
  induction chunks generalizing n with
  | nil => rintro ⟨ch, hch, -⟩; simp at hch
  | cons ch rest ih =>
    rintro ⟨ch', hch', hp⟩
    rcases List.mem_cons.mp hch' with rfl | hmem
    · exact bind_isOk_false_left _ _ (screenBatchE_isOk_false c n ch' hp)
    · refine bind_isOk_false_right _ _ ?_
      intro b hb
      exact bind_isOk_false_left _ _ (ih (n + 1) ⟨ch', hmem, hp⟩)

/-! ## Rank, order and statistics lemmas for one batch -/

/-- Forget the `priority_rank` assigned after sorting (every
pre-ranking result carries the default rank 1). -/
def stripRank (r : ScreeningResult) : ScreeningResult :=
  { r with priority_rank := 1 }

theorem assignRanksFrom_map_rank (l : List ScreeningResult) :
    ∀ n, (assignRanksFrom n l).map (fun r => r.priority_rank) = List.range' n l.length := by
  induction l with
  | nil => intro n; rfl
  | cons r rs ih =>
    intro n
    show n :: (assignRanksFrom (n + 1) rs).map (fun r => r.priority_rank) = _
    rw [ih (n + 1), List.length_cons, List.range'_succ]

theorem assignRanksFrom_map_strip (l : List ScreeningResult) :
    ∀ n, (assignRanksFrom n l).map stripRank = l.map stripRank := by
  induction l with
  | nil => intro n; rfl
  | cons r rs ih => intro n; show stripRank _ :: _ = _; rw [ih (n + 1)]; rfl

theorem assignRanksFrom_map_score (l : List ScreeningResult) :
    ∀ n, (assignRanksFrom n l).map (fun r => r.relevance_score) =
      l.map (fun r => r.relevance_score) := by
  induction l with
  | nil => intro n; rfl
  | cons r rs ih =>
    intro n
    show _ :: _ = _
    rw [ih (n + 1)]
    rfl

/-- Every result produced by `resultOf` already carries rank 1, so on
them `stripRank` is the identity. -/
theorem stripRank_resultOf (c : ScreeningCriteria) (p : Paper) :
    stripRank (resultOf c p) = resultOf c p := rfl

theorem map_stripRank_sortResults (c : ScreeningCriteria) (papers : List Paper) :
    (sortResults (papers.map (resultOf c))).map stripRank =
      sortResults (papers.map (resultOf c)) := by
  have hid : ∀ r ∈ sortResults (papers.map (resultOf c)), stripRank r = r := by
    intro r hr
    have hmem : r ∈ papers.map (resultOf c) :=
      (List.perm_insertionSort scoreGE (papers.map (resultOf c))).mem_iff.mp hr
    rcases List.mem_map.mp hmem with ⟨p, _, rfl⟩
    rfl
  rw [List.map_congr_left hid]
  simp

/-- The batch contents of one screened batch: ranks are `1..n` in
order, scores are descending, and modulo the assigned ranks the results
are a stable permutation of the per-document results in input order. -/
theorem screenBatchWf_properties (c : ScreeningCriteria) (n : Nat) (papers : List Paper) :
    ((screenBatchWf c n papers).papers.map (fun r => r.priority_rank) =
        List.range' 1 papers.length)
    ∧ List.Pairwise (fun r s => s.relevance_score ≤ r.relevance_score)
        (screenBatchWf c n papers).papers
    ∧ ((screenBatchWf c n papers).papers.map stripRank).Perm (papers.map (resultOf c))
    ∧ ∀ q : Rat, ((screenBatchWf c n papers).papers.map stripRank).filter
          (fun r => r.relevance_score == q)
        = (papers.map (resultOf c)).filter (fun r => r.relevance_score == q) := by
  have hpap : (screenBatchWf c n papers).papers =
      assignRanksFrom 1 (sortResults (papers.map (resultOf c))) := rfl
  have hstrip : (screenBatchWf c n papers).papers.map stripRank =
      sortResults (papers.map (resultOf c)) := by
    rw [hpap, assignRanksFrom_map_strip, map_stripRank_sortResults]
  refine ⟨?_, ?_, ?_, ?_⟩
  · rw [hpap, assignRanksFrom_map_rank]
    unfold sortResults
    rw [List.length_insertionSort, List.length_map]
  · have hsorted : List.Pairwise scoreGE (sortResults (papers.map (resultOf c))) :=
      List.sorted_insertionSort scoreGE (papers.map (resultOf c))
    have hmapped : List.Pairwise (fun a b : Rat => b ≤ a)
        ((sortResults (papers.map (resultOf c))).map (fun r => r.relevance_score)) :=
      List.pairwise_map.mpr hsorted
    have hsc : ((screenBatchWf c n papers).papers.map (fun r => r.relevance_score)) =
        (sortResults (papers.map (resultOf c))).map (fun r => r.relevance_score) := by
      rw [hpap, assignRanksFrom_map_score]
    exact List.pairwise_map.mp (hsc ▸ hmapped)
  · rw [hstrip]
    exact List.perm_insertionSort scoreGE (papers.map (resultOf c))
  · intro q
    rw [hstrip]
    exact filter_insertionSort_eq scoreGE (fun r => r.relevance_score == q)
      (fun a b ha hb => by
        show b.relevance_score ≤ a.relevance_score
        rw [eq_of_beq ha, eq_of_beq hb]) (papers.map (resultOf c))

/-- Counting results by a property of the normalised score is the same
as counting the batch documents by the corresponding property. -/
theorem screenBatchWf_countP (c : ScreeningCriteria) (n : Nat) (papers : List Paper)
    (f : Rat → Bool) :
    (screenBatchWf c n papers).papers.countP (fun r => f r.relevance_score) =
      papers.countP (fun p =>
        f (((calculate_relevance_score p.title p.abstract c).value : Rat) / 3)) := by
  have h1 : ∀ l : List ScreeningResult,
      l.countP (fun r => f r.relevance_score) =
        (l.map (fun r => r.relevance_score)).countP f := by
    intro l
    rw [List.countP_map]
    rfl
  rw [h1, show (screenBatchWf c n papers).papers = assignRanksFrom 1
      (sortResults (papers.map (resultOf c))) from rfl,
    assignRanksFrom_map_score]
  have hperm : ((sortResults (papers.map (resultOf c))).map (fun r => r.relevance_score)).Perm
      ((papers.map (resultOf c)).map (fun r => r.relevance_score)) :=
    (List.perm_insertionSort scoreGE (papers.map (resultOf c))).map _
  rw [hperm.countP_eq, List.map_map, List.countP_map]
  rfl

/-- Four mutually exclusive, exhaustive predicates count up to the
length. -/
theorem countP_four_partition {α : Type u} (l : List α) (p1 p2 p3 p4 : α → Bool)
    (h : ∀ a ∈ l, (if p1 a then (1 : Nat) else 0) + (if p2 a then 1 else 0)
      + (if p3 a then 1 else 0) + (if p4 a then 1 else 0) = 1) :
    l.countP p1 + l.countP p2 + l.countP p3 + l.countP p4 = l.length := by
  induction l with
  | nil => rfl
  | cons x xs ih =>
    have hx := h x (List.mem_cons_self x xs)
    have hxs := ih (fun a ha => h a (List.mem_cons_of_mem _ ha))
    simp only [List.countP_cons, List.length_cons]
    omega

/-! ## Characterising the classifier's argmax computation -/

theorem foldl_max_init_le (l : List Nat) : ∀ i : Nat, i ≤ l.foldl Nat.max i := by
  induction l with
  | nil => intro i; exact Nat.le_refl i
  | cons x xs ih => intro i; exact le_trans (Nat.le_max_left i x) (ih (Nat.max i x))

theorem foldl_max_le (l : List Nat) : ∀ i : Nat, ∀ a ∈ l, a ≤ l.foldl Nat.max i := by
  induction l with
  | nil => intro i a ha; simp at ha
  | cons x xs ih =>
    intro i a ha
    rcases List.mem_cons.mp ha with rfl | hmem
    · exact le_trans (Nat.le_max_right i a) (foldl_max_init_le xs (Nat.max i a))
    · exact ih (Nat.max i x) a hmem

theorem foldl_max_mem (l : List Nat) : ∀ i : Nat,
    l.foldl Nat.max i = i ∨ l.foldl Nat.max i ∈ l := by
  induction l with
  | nil => intro i; exact Or.inl rfl
  | cons x xs ih =>
    intro i
    rcases ih (Nat.max i x) with h | h
    · rw [List.foldl_cons, h]
      rcases Nat.le_total i x with hle | hle
      · refine Or.inr ?_
        rw [show Nat.max i x = x from Nat.max_eq_right hle]
        exact List.mem_cons_self x xs
      · exact Or.inl (Nat.max_eq_left hle)
    · exact Or.inr (List.mem_cons_of_mem x h)

/-- The first element of a list satisfying a predicate splits the list
into a prefix of non-satisfying elements, the element, and a tail. -/
theorem headD_filter_split {α : Type u} (p : α → Bool) (d : α) :
    ∀ l : List α, l.filter p ≠ [] →
    p ((l.filter p).headD d) = true ∧
    ∃ pre post, l = pre ++ (l.filter p).headD d :: post ∧ ∀ a ∈ pre, p a = false := by
  intro l
  induction l with
  | nil => intro h; simp at h
  | cons x xs ih =>
    intro hne
    by_cases hx : p x
    · rw [List.filter_cons_of_pos hx]
      exact ⟨hx, [], xs, rfl, by simp⟩
    · rw [List.filter_cons_of_neg hx] at hne ⊢
      rcases ih hne with ⟨hp, pre, post, heq, hpre⟩
      refine ⟨hp, x :: pre, post, by rw [List.cons_append, ← heq], ?_⟩
      intro a ha
      rcases List.mem_cons.mp ha with rfl | hmem
      · exact Bool.of_not_eq_true hx ▸ by simp [hx]
      · exact hpre a hmem

/-- The `max_score` local of `evaluate_methodology`. -/
def methodologyMax (abstract : String) : Nat :=
  (methodologyOrder.map (catScore (strToLower abstract))).foldl Nat.max 0

/-- `evaluate_methodology` rewritten over the category list alone. -/
theorem evaluate_methodology_eq (abstract : String) :
    evaluate_methodology abstract =
      if methodologyMax abstract == 0 then .OTHER
      else (methodologyOrder.filter
          (fun m => catScore (strToLower abstract) m == methodologyMax abstract)).headD
        .OTHER := by
  unfold evaluate_methodology methodologyMax
  have h2 : (methodologyOrder.map (fun m => (m, catScore (strToLower abstract) m))).map
      (fun p => p.2) = methodologyOrder.map (catScore (strToLower abstract)) := by
    rw [List.map_map]
    rfl
  have h1 : ∀ M : Nat, ((methodologyOrder.map
        (fun m => (m, catScore (strToLower abstract) m))).filter
          (fun p => p.2 == M)).map (fun p => p.1) =
      methodologyOrder.filter (fun m => catScore (strToLower abstract) m == M) := by
    intro M
    rw [List.filter_map, List.map_map]
    show List.map (fun m => m) _ = _
    simp [Function.comp_def]
  simp only [h2, h1]

/-- Every category is listed in declaration order. -/
theorem mem_methodologyOrder (m : MethodologyType) : m ∈ methodologyOrder := by
  cases m <;> simp [methodologyOrder]

/-- Full characterisation of the classifier: `max_score` bounds every
category's presence count; a zero maximum yields `OTHER`; a positive
maximum yields the first category, in declaration order, whose presence
count attains the maximum. -/
theorem evaluate_methodology_char (abstract : String) :
    (∀ m : MethodologyType, catScore (strToLower abstract) m ≤ methodologyMax abstract)
    ∧ (methodologyMax abstract = 0 → evaluate_methodology abstract = .OTHER)
    ∧ (0 < methodologyMax abstract →
        catScore (strToLower abstract) (evaluate_methodology abstract) = methodologyMax abstract
        ∧ ∃ pre post,
            methodologyOrder = pre ++ evaluate_methodology abstract :: post
            ∧ ∀ m ∈ pre, catScore (strToLower abstract) m < methodologyMax abstract) := by
  refine ⟨?_, ?_, ?_⟩
  · intro m
    exact foldl_max_le _ 0 _ (List.mem_map_of_mem _ (mem_methodologyOrder m))
  · intro h0
    rw [evaluate_methodology_eq, h0]
    rfl
  · intro hpos
    have hne : methodologyOrder.filter
        (fun m => catScore (strToLower abstract) m == methodologyMax abstract) ≠ [] := by
      rcases foldl_max_mem ((methodologyOrder.map (catScore (strToLower abstract)))) 0 with h | h
      · exact absurd h (by unfold methodologyMax at hpos; omega)
      · rcases List.mem_map.mp h with ⟨m, hm, hEq⟩
        intro hnil
        have hmem : m ∈ methodologyOrder.filter
            (fun m => catScore (strToLower abstract) m == methodologyMax abstract) :=
          List.mem_filter.mpr ⟨hm, by simp [methodologyMax, hEq]⟩
        rw [hnil] at hmem
        simp at hmem
    obtain ⟨hp, pre, post, heq, hpre⟩ :=
      headD_filter_split (fun m => catScore (strToLower abstract) m == methodologyMax abstract)
        .OTHER methodologyOrder hne
    have hresult : evaluate_methodology abstract = (methodologyOrder.filter
        (fun m => catScore (strToLower abstract) m == methodologyMax abstract)).headD .OTHER := by
      rw [evaluate_methodology_eq]
      have hb : (methodologyMax abstract == 0) = false := by
        simp only [beq_eq_false_iff_ne]
        omega
      rw [hb]
      simp
    refine ⟨by rw [hresult]; exact eq_of_beq hp, pre, post, by rw [hresult]; exact heq, ?_⟩
    intro m hm
    have hle := foldl_max_le ((methodologyOrder.map (catScore (strToLower abstract)))) 0
      (catScore (strToLower abstract) m) (List.mem_map_of_mem _ (mem_methodologyOrder m))
    have hneq : catScore (strToLower abstract) m ≠ methodologyMax abstract := by
      have := hpre m hm
      simpa using this
    exact Nat.lt_of_le_of_ne hle hneq

/-- Fuel-driven equivalent of `chunkList` (structurally recursive, so
that the kernel can evaluate chunkings of concrete lists). -/
def chunkListF : Nat → Nat → List α → List (List α)
  | _, _, [] => []
  | 0, _, _ => []
  | f + 1, bs, x :: xs =>
    if bs = 0 then []
    else (x :: xs).take bs :: chunkListF f bs ((x :: xs).drop bs)

/-- `chunkListF` computes `chunkList` once the fuel covers the list. -/
theorem chunkListF_eq (bs : Nat) :
    ∀ (fuel : Nat) (l : List α), l.length ≤ fuel → chunkListF fuel bs l = chunkList bs l := by
  intro fuel
  induction fuel with
  | zero =>
    intro l hl
    have hnil : l = [] := by
      cases l with
      | nil => rfl
      | cons x xs => simp at hl
    subst hnil
    rw [chunkList.eq_def]
    cases bs <;> simp [chunkListF]
  | succ f ih =>
    intro l hl
    cases l with
    | nil =>
      rw [chunkList.eq_def]
      cases bs <;> simp [chunkListF]
    | cons x xs =>
      rw [chunkList.eq_def]
      by_cases hbs : bs = 0
      · simp [chunkListF, hbs]
      · simp only [chunkListF, if_neg hbs]
        rw [ih ((x :: xs).drop bs) (by
          simp only [List.length_drop, List.length_cons]
          simp only [List.length_cons] at hl
          omega)]

/-! ## Claim C5: rewind (`go_back`) -/

/-- C5: on a workflow whose history has fewer than 2 checkpoints
(including exactly one), `go_back` returns `None` and leaves the history
and current checkpoint unchanged; with at least 2 checkpoints it pops
the last checkpoint and returns the new tail, which becomes the current
checkpoint. -/
theorem c5_go_back_spec (wm : WorkflowManager) :
    (wm.history.length < 2 → go_back wm = (none, wm))
    ∧ (2 ≤ wm.history.length →
        (go_back wm).2.history = wm.history.dropLast
        ∧ (go_back wm).1 = wm.history.dropLast.getLast?
        ∧ (go_back wm).2.currentState = wm.history.dropLast.getLast?
        ∧ (go_back wm).1 ≠ none) := by
  constructor
  · intro h
    unfold go_back
    rw [if_pos h]
  · intro h
    unfold go_back
    rw [if_neg (by omega)]
    refine ⟨rfl, rfl, rfl, ?_⟩
    have hne : wm.history.dropLast ≠ [] := by
      have hlen : wm.history.dropLast.length = wm.history.length - 1 :=
        List.length_dropLast _
      intro hnil
      rw [hnil] at hlen
      simp at hlen
      omega
    have hsome : wm.history.dropLast.getLast?.isSome := by
      rw [List.getLast?_isSome]
      exact hne
    simp only [Option.isSome_iff_ne_none] at hsome
    exact hsome

/-- A root checkpoint for the C5 witness. -/
def c5StA : WorkflowState :=
  { step := "questions"
    data := .question { main_question := "m", sub_questions := [], context := [],
                        validation_score := 1, user_approved := false }
    modified_by_user := false }

/-- A second checkpoint for the C5 witness. -/
def c5StB : WorkflowState :=
  { step := "keywords"
    data := .strategy { keywords := ["k"], combinations := [], constraints := [],
                        user_approved := false }
    modified_by_user := false }

/-- C5 witness: a 1-checkpoint workflow is not rewound; a 2-checkpoint
workflow is rewound to its root. -/
theorem c5_go_back_spec_witness :
    (([c5StA] : List WorkflowState).length < 2
      ∧ go_back { history := [c5StA], currentState := some c5StA } =
          (none, { history := [c5StA], currentState := some c5StA }))
    ∧ (2 ≤ ([c5StA, c5StB] : List WorkflowState).length
      ∧ (go_back { history := [c5StA, c5StB], currentState := some c5StB }).2.history = [c5StA]
      ∧ (go_back { history := [c5StA, c5StB], currentState := some c5StB }).1 = some c5StA
      ∧ (go_back { history := [c5StA, c5StB], currentState := some c5StB }).2.currentState =
          some c5StA) := by
  have h1 := (c5_go_back_spec { history := [c5StA], currentState := some c5StA }).1
    (by decide)
  have h2 := (c5_go_back_spec { history := [c5StA, c5StB], currentState := some c5StB }).2
    (by decide)
  exact ⟨⟨by decide, h1⟩, by decide, by rw [h2.1]; rfl, by rw [h2.2.1]; rfl,
    by rw [h2.2.2.1]; rfl⟩

/-! ## Claim C6: the advance order of the workflow -/

/-- C6: starting a workflow and repeatedly advancing visits the steps
`questions → keywords → papers → screening`, appending exactly one new
checkpoint per advance and returning the appended checkpoint; advancing
at `screening` returns the completion sentinel `None` and appends
nothing. -/
theorem c6_advance_order (ag : Agents) (idea : String) :
    let w0 := (start_workflow ag WorkflowManager.initial idea).2
    let a1 := continue_workflow ag w0
    let a2 := continue_workflow ag a1.2
    let a3 := continue_workflow ag a2.2
    let a4 := continue_workflow ag a3.2
    (w0.currentState.map (fun st => st.step) = some "questions"
      ∧ w0.history.length = 1
      ∧ w0.currentState = w0.history.getLast?)
    ∧ (a1.1 = a1.2.currentState
      ∧ a1.2.currentState.map (fun st => st.step) = some "keywords"
      ∧ a1.2.history.dropLast = w0.history
      ∧ a1.2.history.length = 2
      ∧ a1.2.currentState = a1.2.history.getLast?)
    ∧ (a2.1 = a2.2.currentState
      ∧ a2.2.currentState.map (fun st => st.step) = some "papers"
      ∧ a2.2.history.dropLast = a1.2.history
      ∧ a2.2.history.length = 3
      ∧ a2.2.currentState = a2.2.history.getLast?)
    ∧ (a3.1 = a3.2.currentState
      ∧ a3.2.currentState.map (fun st => st.step) = some "screening"
      ∧ a3.2.history.dropLast = a2.2.history
      ∧ a3.2.history.length = 4
      ∧ a3.2.currentState = a3.2.history.getLast?)
    ∧ a4.1 = none
    ∧ a4.2 = a3.2 := by
  exact ⟨⟨rfl, rfl, rfl⟩, ⟨rfl, rfl, rfl, rfl, rfl⟩, ⟨rfl, rfl, rfl, rfl, rfl⟩,
    ⟨rfl, rfl, rfl, rfl, rfl⟩, rfl, rfl⟩

/-! ## Claim C7: user modification of the current step -/

/-- The edit keys `modify_current_step` actually reads for a given
payload shape (statement vocabulary for C7). -/
def recognizedKey (d : StepData) (k : String) : Bool :=
  match d with
  | .question _ => k == "main_question" || k == "sub_questions"
  | .strategy _ => k == "keywords" || k == "combinations"
  | .papers ps => ps.any (fun p => p.paper_id == k)

theorem lookupMod_eq_none (mods : Modifications) (k : String)
    (h : ∀ kv ∈ mods, kv.1 ≠ k) : lookupMod mods k = none := by
  unfold lookupMod
  rw [List.find?_eq_none.mpr (fun kv hkv => by simp [h kv hkv])]

/-- C7 (amended): with a current checkpoint, `modify_current_step`
always succeeds — edits naming fields that are not defined for the
current payload's type are silently ignored, there is no
ValidationError — and it patches the payload in place: `modified_by_user`
is set, the step is unchanged, no checkpoint is appended, patched fields
take the supplied values and unpatched fields are untouched. -/
theorem c7_modify_spec (wm : WorkflowManager) (st : WorkflowState) (mods : Modifications)
    (hcur : wm.currentState = some st) :
    (modify_current_step wm mods).isOk = true
    ∧ ∀ st' wm', modify_current_step wm mods = Except.ok (st', wm') →
        st'.step = st.step
        ∧ st'.modified_by_user = true
        ∧ wm'.currentState = some st'
        ∧ wm'.history = wm.history.dropLast ++ [st']
        ∧ (wm.history ≠ [] → wm'.history.length = wm.history.length)
        ∧ st'.data = applyMods st.data mods
        ∧ (∀ q q', st.data = .question q → st'.data = .question q' →
            (lookupMod mods "main_question" = none → q'.main_question = q.main_question)
            ∧ (∀ v, lookupMod mods "main_question" = some (.str v) → q'.main_question = v)
            ∧ (lookupMod mods "sub_questions" = none → q'.sub_questions = q.sub_questions)
            ∧ (∀ v, lookupMod mods "sub_questions" = some (.strList v) → q'.sub_questions = v)
            ∧ q'.context = q.context
            ∧ q'.validation_score = q.validation_score
            ∧ q'.user_approved = q.user_approved)
        ∧ (∀ s s', st.data = .strategy s → st'.data = .strategy s' →
            (lookupMod mods "keywords" = none → s'.keywords = s.keywords)
            ∧ (∀ v, lookupMod mods "keywords" = some (.strList v) → s'.keywords = v)
            ∧ (lookupMod mods "combinations" = none → s'.combinations = s.combinations)
            ∧ (∀ v, lookupMod mods "combinations" = some (.strList v) → s'.combinations = v)
            ∧ s'.constraints = s.constraints
            ∧ s'.user_approved = s.user_approved)
        ∧ (∀ ps, st.data = .papers ps → st'.data = .papers (ps.map (fun p =>
            match lookupMod mods p.paper_id with
            | some (.num v) => { p with user_reviewed := true, relevance_score := some v }
            | some _ => { p with user_reviewed := true }
            | none => p)))
        ∧ ((∀ kv ∈ mods, recognizedKey st.data kv.1 = false) → st'.data = st.data) := by
  unfold modify_current_step
  rw [hcur]
  refine ⟨rfl, ?_⟩
  intro st' wm' heq
  have hst' : st' = { st with data := applyMods st.data mods, modified_by_user := true } := by
    cases heq
    rfl
  have hwm' : wm' = { history := wm.history.dropLast ++ [st'], currentState := some st' } := by
    cases heq
    rfl
  subst hst' hwm'
  refine ⟨rfl, rfl, rfl, rfl, ?_, rfl, ?_, ?_, ?_, ?_⟩
  · intro hne
    rw [List.length_append, List.length_dropLast]
    have hpos : 0 < wm.history.length := List.length_pos.mpr hne
    simp
    omega
  · intro q q' hq hq'
    rw [hq] at hq'
    unfold applyMods at hq'
    simp only [StepData.question.injEq] at hq'
    subst hq'
    refine ⟨?_, ?_, ?_, ?_, rfl, rfl, rfl⟩
    · intro hnone; simp [getStr, hnone]
    · intro v hv; simp [getStr, hv]
    · intro hnone; simp [getStrList, hnone]
    · intro v hv; simp [getStrList, hv]
  · intro s s' hs hs'
    rw [hs] at hs'
    unfold applyMods at hs'
    simp only [StepData.strategy.injEq] at hs'
    subst hs'
    refine ⟨?_, ?_, ?_, ?_, rfl, rfl⟩
    · intro hnone; simp [getStrList, hnone]
    · intro v hv; simp [getStrList, hv]
    · intro hnone; simp [getStrList, hnone]
    · intro v hv; simp [getStrList, hv]
  · intro ps hps
    rw [hps]
    rfl
  · intro hunrec
    cases hd : st.data with
    | question q =>
      have h1 : lookupMod mods "main_question" = none := by
        apply lookupMod_eq_none
        intro kv hkv heq1
        have := hunrec kv hkv
        rw [hd, heq1] at this
        simp [recognizedKey] at this
      have h2 : lookupMod mods "sub_questions" = none := by
        apply lookupMod_eq_none
        intro kv hkv heq1
        have := hunrec kv hkv
        rw [hd, heq1] at this
        simp [recognizedKey] at this
      unfold applyMods
      simp [getStr, getStrList, h1, h2]
    | strategy s =>
      have h1 : lookupMod mods "keywords" = none := by
        apply lookupMod_eq_none
        intro kv hkv heq1
        have := hunrec kv hkv
        rw [hd, heq1] at this
        simp [recognizedKey] at this
      have h2 : lookupMod mods "combinations" = none := by
        apply lookupMod_eq_none
        intro kv hkv heq1
        have := hunrec kv hkv
        rw [hd, heq1] at this
        simp [recognizedKey] at this
      unfold applyMods
      simp [getStrList, h1, h2]
    | papers ps =>
      unfold applyMods
      simp only [StepData.papers.injEq]
      refine (List.map_congr_left ?_).trans (List.map_id ps)
      intro p hp
      have hnone : lookupMod mods p.paper_id = none := by
        apply lookupMod_eq_none
        intro kv hkv heq1
        have := hunrec kv hkv
        rw [hd, heq1] at this
        simp only [recognizedKey] at this
        rw [List.any_eq_false] at this
        exact this p hp (by simp)
      simp [hnone]

/-- Concrete checkpoint for the C7 witness and counterexample. -/
def c7St : WorkflowState :=
  { step := "questions"
    data := .question { main_question := "m", sub_questions := ["s"],
                        context := [], validation_score := 1,
                        user_approved := false }
    modified_by_user := false }

/-- C7 witness: applying the amended theorem at a concrete workflow with
a question payload. -/
theorem c7_modify_spec_witness :
    ({ history := [c7St], currentState := some c7St } : WorkflowManager).currentState =
      some c7St
    ∧ (modify_current_step { history := [c7St], currentState := some c7St }
        [("main_question", ModValue.str "new")]).isOk = true :=
  ⟨rfl, (c7_modify_spec { history := [c7St], currentState := some c7St } c7St
    [("main_question", ModValue.str "new")] rfl).1⟩

/-- Concrete workflow for the C7 counterexample. -/
def c7Wm : WorkflowManager :=
  { history := [{ step := "questions"
                  data := .question { main_question := "m", sub_questions := ["s"],
                                      context := [], validation_score := 1,
                                      user_approved := false }
                  modified_by_user := false }]
    currentState := some { step := "questions"
                           data := .question { main_question := "m", sub_questions := ["s"],
                                               context := [], validation_score := 1,
                                               user_approved := false }
                           modified_by_user := false } }

/-- C7 counterexample: the claim says edits naming a field undefined for
the current payload fail with a ValidationError; in the code the edit
`{"not_a_field": ...}` succeeds, is silently ignored, and the payload is
returned unchanged (only `modified_by_user` flips). -/
theorem c7_counterexample :
    (modify_current_step c7Wm [("not_a_field", ModValue.str "x")]).isOk = true
    ∧ modify_current_step c7Wm [("not_a_field", ModValue.str "x")] =
        Except.ok
          ({ step := "questions"
             data := .question { main_question := "m", sub_questions := ["s"], context := [],
                                 validation_score := 1, user_approved := false }
             modified_by_user := true },
           { history := [{ step := "questions"
                           data := .question { main_question := "m", sub_questions := ["s"],
                                               context := [], validation_score := 1,
                                               user_approved := false }
                           modified_by_user := true }]
             currentState := some { step := "questions"
                                    data := .question { main_question := "m",
                                                        sub_questions := ["s"], context := [],
                                                        validation_score := 1,
                                                        user_approved := false }
                                    modified_by_user := true } }) := by
  constructor
  · decide
  · decide

/-! ## Claim C10: the "survey" tie is broken in favour of REVIEW -/

/-- All trigger phrases of all categories. -/
def allTriggerPhrases : List String :=
  (methodologyOrder.map methodology_keywords).flatten

/-- C10: an abstract whose lowered text contains the trigger phrase
"survey" and no other trigger phrase is classified REVIEW, not SURVEY:
"survey" is a trigger of both categories, both score 1, and the tie
goes to REVIEW, which comes first in declaration order. -/
theorem c10_survey_tie (abstract : String)
    (hpos : strContains (strToLower abstract) "survey" = true)
    (hneg : ∀ k ∈ allTriggerPhrases, k ≠ "survey" →
      strContains (strToLower abstract) k = false) :
    evaluate_methodology abstract = .REVIEW
    ∧ evaluate_methodology abstract ≠ .SURVEY
    ∧ catScore (strToLower abstract) .REVIEW = 1
    ∧ catScore (strToLower abstract) .SURVEY = 1 := by
  have hk : ∀ k, k ∈ allTriggerPhrases → k ≠ "survey" →
      strContains (strToLower abstract) k = false := hneg
  have h01 := hk "experiment" (by decide) (by decide)
  have h02 := hk "trial" (by decide) (by decide)
  have h03 := hk "measurement" (by decide) (by decide)
  have h04 := hk "theory" (by decide) (by decide)
  have h05 := hk "framework" (by decide) (by decide)
  have h06 := hk "model" (by decide) (by decide)
  have h07 := hk "review" (by decide) (by decide)
  have h08 := hk "overview" (by decide) (by decide)
  have h09 := hk "case study" (by decide) (by decide)
  have h10 := hk "case-study" (by decide) (by decide)
  have h11 := hk "case analysis" (by decide) (by decide)
  have h12 := hk "questionnaire" (by decide) (by decide)
  have h13 := hk "interview" (by decide) (by decide)
  have h14 := hk "meta-analysis" (by decide) (by decide)
  have h15 := hk "meta analysis" (by decide) (by decide)
  have h16 := hk "systematic review" (by decide) (by decide)
  have hEXP : catScore (strToLower abstract) .EXPERIMENTAL = 0 := by
    simp [catScore, methodology_keywords, List.countP_cons, h01, h02, h03]
  have hTHE : catScore (strToLower abstract) .THEORETICAL = 0 := by
    simp [catScore, methodology_keywords, List.countP_cons, h04, h05, h06]
  have hREV : catScore (strToLower abstract) .REVIEW = 1 := by
    simp [catScore, methodology_keywords, List.countP_cons, List.countP_nil, h07, h08, hpos]
  have hCAS : catScore (strToLower abstract) .CASE_STUDY = 0 := by
    simp [catScore, methodology_keywords, List.countP_cons, h09, h10, h11]
  have hSUR : catScore (strToLower abstract) .SURVEY = 1 := by
    simp [catScore, methodology_keywords, List.countP_cons, List.countP_nil, h12, h13, hpos]
  have hMET : catScore (strToLower abstract) .META_ANALYSIS = 0 := by
    simp [catScore, methodology_keywords, List.countP_cons, h14, h15, h16]
  have hOTH : catScore (strToLower abstract) .OTHER = 0 := rfl
  have hmax : methodologyMax abstract = 1 := by
    unfold methodologyMax
    rw [show methodologyOrder.map (catScore (strToLower abstract)) = [0, 0, 1, 0, 1, 0, 0] by
      simp [methodologyOrder, hEXP, hTHE, hREV, hCAS, hSUR, hMET, hOTH]]
    rfl
  have hres : evaluate_methodology abstract = .REVIEW := by
    rw [evaluate_methodology_eq, hmax]
    simp only [methodologyOrder, List.filter_cons, hEXP, hTHE, hREV, hCAS, hSUR, hMET, hOTH]
    rfl
  exact ⟨hres, by rw [hres]; decide, hREV, hSUR⟩

/-- C10 witness: the abstract "a survey" contains "survey" and no other
trigger phrase, and is classified REVIEW. -/
theorem c10_survey_tie_witness :
    strContains (strToLower "a survey") "survey" = true
    ∧ (∀ k ∈ allTriggerPhrases, k ≠ "survey" →
        strContains (strToLower "a survey") k = false)
    ∧ evaluate_methodology "a survey" = .REVIEW
    ∧ evaluate_methodology "a survey" ≠ .SURVEY := by
  have h := c10_survey_tie "a survey" (by decide) (by decide)
  exact ⟨by decide, by decide, h.1, h.2.1⟩

/-! ## Claim C2: the methodology classifier -/

/-- C2 (amended): `evaluate_methodology` lower-cases the abstract and
scores each category by the number of its trigger phrases that occur at
least once as substrings (phrase presence, not occurrence count); it
returns the category with the maximum score, ties broken by first
category in declaration order, and OTHER when the maximum is zero.  For
an abstract containing "experiment" twice and "theory" once, both
EXPERIMENTAL and THEORETICAL score 1 (not 2 and 1), and the tie-break
yields EXPERIMENTAL. -/
theorem c2_classifier_presence (abstract : String) :
    ((∀ m : MethodologyType, catScore (strToLower abstract) m ≤ methodologyMax abstract)
    ∧ (methodologyMax abstract = 0 → evaluate_methodology abstract = .OTHER)
    ∧ (0 < methodologyMax abstract →
        catScore (strToLower abstract) (evaluate_methodology abstract) = methodologyMax abstract
        ∧ ∃ pre post,
            methodologyOrder = pre ++ evaluate_methodology abstract :: post
            ∧ ∀ m ∈ pre, catScore (strToLower abstract) m < methodologyMax abstract))
    ∧ catScore (strToLower "experiment experiment theory") .EXPERIMENTAL = 1
    ∧ catScore (strToLower "experiment experiment theory") .THEORETICAL = 1
    ∧ evaluate_methodology "experiment experiment theory" = .EXPERIMENTAL :=
  ⟨evaluate_methodology_char abstract, by decide, by decide, by decide⟩

/-- C2 witness: the characterisation applied at a concrete abstract with
a positive maximum. -/
theorem c2_classifier_presence_witness :
    0 < methodologyMax "an experiment"
    ∧ catScore (strToLower "an experiment") (evaluate_methodology "an experiment") =
        methodologyMax "an experiment" := by
  have h := ((c2_classifier_presence "an experiment").1.2.2 (by decide)).1
  exact ⟨by decide, h⟩

/-- C2 counterexample: on "theory theory experiment" the occurrence-count
classifier described by the claim returns THEORETICAL (sum 2 beats 1),
but the code counts phrase presence, ties EXPERIMENTAL and THEORETICAL
at 1, and returns EXPERIMENTAL. -/
theorem c2_counterexample :
    specOccScore (strToLower "theory theory experiment") .THEORETICAL = 2
    ∧ specOccScore (strToLower "theory theory experiment") .EXPERIMENTAL = 1
    ∧ evaluateMethodologySpecOcc "theory theory experiment" = .THEORETICAL
    ∧ evaluate_methodology "theory theory experiment" = .EXPERIMENTAL
    ∧ evaluate_methodology "theory theory experiment" ≠
        evaluateMethodologySpecOcc "theory theory experiment" :=
  ⟨by decide, by decide, by decide, by decide, by decide⟩

/-! ## Claim C1: the relevance scorer -/

theorem foldl_count_keywords (f : String → Bool) :
    ∀ (l : List String) (n : Nat),
    l.foldl (fun n k => if f k then n + 1 else n) n = n + l.countP f := by
  intro l
  induction l with
  | nil => intro n; simp
  | cons x xs ih =>
    intro n
    by_cases hx : f x
    · simp [List.foldl_cons, hx, ih, List.countP_cons]
      omega
    · simp [List.foldl_cons, hx, ih, List.countP_cons]

theorem foldl_sub_keywords (f : String → Bool) :
    ∀ (l : List String) (s : Rat),
    l.foldl (fun s k => if f k then s - 1 else s) s = s - (l.countP f : Rat) := by
  intro l
  induction l with
  | nil => intro s; simp
  | cons x xs ih =>
    intro s
    by_cases hx : f x
    · simp [List.foldl_cons, hx, ih, List.countP_cons]
      ring
    · simp [List.foldl_cons, hx, ih, List.countP_cons]

/-- C1: the relevance scorer computes
`required_ratio * 2 - (excluded matches) + (methodology bonus)` with the
documented case-insensitive substring match, and buckets the point total
into tiers at 2.5 / 1.5 / 0.5; the `["quantum","ai"]` scenario scores
3.0 and lands in HIGH. -/
theorem c1_relevance_scorer :
    (∀ (title abstract : String) (c : ScreeningCriteria),
      relevancePoints title abstract c =
        (if c.required_keywords = [] then (1 : Rat)
         else ((c.required_keywords.countP
              (keywordFound (strToLower abstract) (strToLower title)) : Rat) /
            (c.required_keywords.length : Rat))) * 2
        - (c.excluded_keywords.countP
            (keywordFound (strToLower abstract) (strToLower title)) : Rat)
        + (if c.methodology_types.contains (evaluate_methodology abstract) then 1 else 0)
      ∧ (calculate_relevance_score title abstract c = .HIGH ↔
          (5 : Rat) / 2 ≤ relevancePoints title abstract c)
      ∧ (calculate_relevance_score title abstract c = .MEDIUM ↔
          (3 : Rat) / 2 ≤ relevancePoints title abstract c
            ∧ relevancePoints title abstract c < (5 : Rat) / 2)
      ∧ (calculate_relevance_score title abstract c = .LOW ↔
          (1 : Rat) / 2 ≤ relevancePoints title abstract c
            ∧ relevancePoints title abstract c < (3 : Rat) / 2)
      ∧ (calculate_relevance_score title abstract c = .IRRELEVANT ↔
          relevancePoints title abstract c < (1 : Rat) / 2))
    ∧ relevancePoints "a title" "the quantum ai experiment"
        { required_keywords := ["quantum", "ai"], excluded_keywords := [],
          methodology_types := [.EXPERIMENTAL], min_relevance_score := .LOW } = 3
    ∧ calculate_relevance_score "a title" "the quantum ai experiment"
        { required_keywords := ["quantum", "ai"], excluded_keywords := [],
          methodology_types := [.EXPERIMENTAL], min_relevance_score := .LOW } = .HIGH := by
  refine ⟨?_, by decide, by decide⟩
  intro title abstract c
  constructor
  · simp only [relevancePoints]
    rw [foldl_count_keywords, foldl_sub_keywords]
    by_cases hreq : c.required_keywords = [] <;>
      by_cases hm : evaluate_methodology abstract ∈ c.methodology_types <;>
        simp [hreq, hm, List.isEmpty_iff]
  · simp only [calculate_relevance_score]
    split_ifs with h1 h2 h3 <;>
      refine ⟨?_, ?_, ?_, ?_⟩ <;> constructor <;> intro hh <;>
        first
          | rfl
          | exact h1
          | exact ⟨h2, by linarith⟩
          | exact ⟨h3, by linarith⟩
          | (exact absurd hh (by decide))
          | (exfalso; rcases hh with ⟨hha, hhb⟩ <;> linarith)
          | (exfalso; linarith)
          | linarith

/-! ## Claim C3: single-document themes (code bug) -/

/-- C3 (code bug): `identify_themes` is meant to keep only themes found
in multiple papers (its own comment says so), but it filters on the
token-occurrence count: a word occurring twice inside one single
document becomes a theme whose paper set has cardinality 1. -/
theorem c3_single_document_theme :
    identify_themes [{ arxiv_id := "p1", title := "hello", abstract := "hello" }] =
      [{ theme_name := "hello", keywords := ["hello"], frequency := 2,
         papers := ["p1"], confidence := 1 }]
    ∧ (identify_themes [{ arxiv_id := "p1", title := "hello", abstract := "hello" }]).map
        (fun t => t.papers.length) = [1] :=
  ⟨by decide, by decide⟩

/-! ## Claim C4: batching, in-batch stable ordering, ranks -/

theorem screenChunksWf_forall2 (c : ScreeningCriteria) (P : ScreeningBatch → List Paper → Prop)
    (h : ∀ (n : Nat) (ch : List Paper), P (screenBatchWf c n ch) ch) :
    ∀ (n : Nat) (chunks : List (List Paper)),
      List.Forall₂ P (screenChunksWf c n chunks) chunks := by
  intro n chunks
  induction chunks generalizing n with
  | nil => exact List.Forall₂.nil
  | cons ch rest ih => exact List.Forall₂.cons (h n ch) (ih (n + 1))

/-- C4: on a non-empty document list and `batch_size ≥ 1`,
`screen_abstracts` partitions the documents into consecutive batches of
size `batch_size` with only the last batch possibly shorter; within each
batch the results are sorted by relevance score descending by a stable
sort (per score class, input order is retained), and the assigned
`priority_rank`s are exactly `1..batch length` in order. -/
theorem c4_batching (papers : List Paper) (c : ScreeningCriteria) (bs : Nat)
    (hbs : 1 ≤ bs) (hne : papers ≠ []) :
    (chunkList bs papers).flatten = papers
    ∧ chunkList bs papers ≠ []
    ∧ (∀ ch ∈ chunkList bs papers, ch ≠ [] ∧ ch.length ≤ bs)
    ∧ (∀ ch ∈ (chunkList bs papers).dropLast, ch.length = bs)
    ∧ screen_abstracts (papers.map Paper.toRaw) c bs =
        Except.ok (screenAbstractsWf papers c bs)
    ∧ List.Forall₂ (fun (b : ScreeningBatch) (ch : List Paper) =>
        b.papers.map (fun r => r.priority_rank) = List.range' 1 ch.length
        ∧ List.Pairwise (fun r s => s.relevance_score ≤ r.relevance_score) b.papers
        ∧ (b.papers.map stripRank).Perm (ch.map (resultOf c))
        ∧ ∀ q : Rat, (b.papers.map stripRank).filter (fun r => r.relevance_score == q)
            = (ch.map (resultOf c)).filter (fun r => r.relevance_score == q))
      (screenAbstractsWf papers c bs) (chunkList bs papers) := by
  refine ⟨chunkList_join bs papers hbs, ?_, chunkList_mem_length bs papers hbs,
    chunkList_dropLast_length bs papers hbs, screen_abstracts_wf papers c bs, ?_⟩
  · intro h
    exact hne ((chunkList_eq_nil_iff bs papers hbs).mp h)
  · unfold screenAbstractsWf
    exact screenChunksWf_forall2 c _ (fun n ch => screenBatchWf_properties c n ch) 1
      (chunkList bs papers)

/-- Ten concrete papers for the C4 witness. -/
def c4Papers : List Paper :=
  [{ arxiv_id := "p0", title := "t", abstract := "a" },
   { arxiv_id := "p1", title := "t", abstract := "a" },
   { arxiv_id := "p2", title := "t", abstract := "a" },
   { arxiv_id := "p3", title := "t", abstract := "a" },
   { arxiv_id := "p4", title := "t", abstract := "a" },
   { arxiv_id := "p5", title := "t", abstract := "a" },
   { arxiv_id := "p6", title := "t", abstract := "a" },
   { arxiv_id := "p7", title := "t", abstract := "a" },
   { arxiv_id := "p8", title := "t", abstract := "a" },
   { arxiv_id := "p9", title := "t", abstract := "a" }]

/-- Criteria for the C4 witness. -/
def c4Crit : ScreeningCriteria :=
  { required_keywords := [], excluded_keywords := [], methodology_types := [],
    min_relevance_score := .LOW }

/-- C4 witness: 10 documents at `batch_size = 4` split into batches of
sizes 4, 4, 2. -/
theorem c4_batching_witness :
    (1 : Nat) ≤ 4
    ∧ c4Papers ≠ []
    ∧ (chunkList 4 c4Papers).map List.length = [4, 4, 2]
    ∧ (chunkList 4 c4Papers).flatten = c4Papers
    ∧ screen_abstracts (c4Papers.map Paper.toRaw) c4Crit 4 =
        Except.ok (screenAbstractsWf c4Papers c4Crit 4) := by
  have h := c4_batching c4Papers c4Crit 4 (by decide) (by decide)
  have hchunk : chunkList 4 c4Papers = chunkListF 10 4 c4Papers :=
    (chunkListF_eq 4 10 c4Papers (by decide)).symm
  refine ⟨by decide, by decide, ?_, h.1, h.2.2.2.2.1⟩
  rw [hchunk]
  decide

/-! ## Claim C8: failure semantics of the screening call -/

/-- C8 (amended): a malformed document (missing `abstract` or `title`)
anywhere in the input aborts the entire `screen_abstracts` call: the
`KeyError` propagates, the call returns an error, and no batches —
including earlier completed ones — are returned. -/
theorem c8_malformed_aborts_call (papers : List RawPaper) (c : ScreeningCriteria) (bs : Nat)
    (hbs : 1 ≤ bs) (h : ∃ p ∈ papers, p.malformed) :
    (screen_abstracts papers c bs).isOk = false := by
  unfold screen_abstracts
  apply screenChunksE_isOk_false
  rcases h with ⟨p, hp, hmal⟩
  have hmem : p ∈ (chunkList bs papers).flatten := by
    rw [chunkList_join bs papers hbs]
    exact hp
  rcases List.mem_flatten.mp hmem with ⟨ch, hch, hpch⟩
  exact ⟨ch, hch, p, hpch, hmal⟩

/-- A well-formed paper for the C8 instances. -/
def c8Good : RawPaper :=
  { arxiv_id := some "a1", title := some "t1", abstract := some "good stuff" }

/-- A paper missing its abstract for the C8 instances. -/
def c8Bad : RawPaper :=
  { arxiv_id := some "a2", title := some "t2", abstract := none }

/-- Criteria for the C8 instances. -/
def c8Crit : ScreeningCriteria :=
  { required_keywords := [], excluded_keywords := [], methodology_types := [],
    min_relevance_score := .LOW }

/-- C8 counterexample: with `batch_size = 1`, the first batch (the
well-formed paper alone) screens successfully, yet running both papers
returns a bare `KeyError("abstract")` — the completed first batch is not
present in any output, contrary to the claimed accumulation of
completed earlier batches. -/
theorem c8_counterexample :
    (screen_abstracts [c8Good] c8Crit 1).isOk = true
    ∧ screen_abstracts [c8Good, c8Bad] c8Crit 1 = Except.error "abstract" := by
  constructor
  · show (screenChunksE c8Crit 1 (chunkList 1 [c8Good])).isOk = true
    rw [← chunkListF_eq 1 1 _ (by decide)]
    decide
  · show screenChunksE c8Crit 1 (chunkList 1 [c8Good, c8Bad]) = _
    rw [← chunkListF_eq 1 2 _ (by decide)]
    decide

/-- C8 witness: the amended theorem applied at the two concrete
papers. -/
theorem c8_malformed_aborts_call_witness :
    (1 : Nat) ≤ 1
    ∧ (∃ p ∈ [c8Good, c8Bad], p.malformed)
    ∧ (screen_abstracts [c8Good, c8Bad] c8Crit 1).isOk = false := by
  have h := c8_malformed_aborts_call [c8Good, c8Bad] c8Crit 1 (by decide)
    ⟨c8Bad, by decide, Or.inl rfl⟩
  exact ⟨by decide, ⟨c8Bad, by decide, Or.inl rfl⟩, h⟩

/-! ## Claim C9: batch statistics are tier counts -/

theorem assignRanksFrom_length (l : List ScreeningResult) :
    ∀ n, (assignRanksFrom n l).length = l.length := by
  induction l with
  | nil => intro n; rfl
  | cons r rs ih =>
    intro n
    show (assignRanksFrom (n + 1) rs).length + 1 = rs.length + 1
    rw [ih (n + 1)]

/-- Statistics of one screened batch, per tier of the batch documents. -/
theorem screenBatchWf_stats (c : ScreeningCriteria) (n : Nat) (papers : List Paper) :
    (screenBatchWf c n papers).batch_statistics.total_papers = papers.length
    ∧ (screenBatchWf c n papers).batch_statistics.high_relevance =
        (papers.filter (fun p =>
          calculate_relevance_score p.title p.abstract c == RelevanceScore.HIGH)).length
    ∧ (screenBatchWf c n papers).batch_statistics.medium_relevance =
        (papers.filter (fun p =>
          calculate_relevance_score p.title p.abstract c == RelevanceScore.MEDIUM)).length
    ∧ (screenBatchWf c n papers).batch_statistics.low_relevance =
        (papers.filter (fun p =>
          calculate_relevance_score p.title p.abstract c == RelevanceScore.LOW)).length
    ∧ (screenBatchWf c n papers).batch_statistics.irrelevant =
        (papers.filter (fun p =>
          calculate_relevance_score p.title p.abstract c == RelevanceScore.IRRELEVANT)).length
    ∧ (screenBatchWf c n papers).batch_statistics.high_relevance
        + (screenBatchWf c n papers).batch_statistics.medium_relevance
        + (screenBatchWf c n papers).batch_statistics.low_relevance
        + (screenBatchWf c n papers).batch_statistics.irrelevant = papers.length := by
  have htot : (screenBatchWf c n papers).batch_statistics.total_papers = papers.length := by
    show (assignRanksFrom 1 (sortResults (papers.map (resultOf c)))).length = _
    rw [assignRanksFrom_length]
    unfold sortResults
    rw [List.length_insertionSort, List.length_map]
  have hhigh : (screenBatchWf c n papers).batch_statistics.high_relevance =
      (papers.filter (fun p =>
        calculate_relevance_score p.title p.abstract c == RelevanceScore.HIGH)).length := by
    show (screenBatchWf c n papers).papers.countP
        (fun r => decide ((3 : Rat) / 4 ≤ r.relevance_score)) = _
    rw [screenBatchWf_countP c n papers (fun q => decide ((3 : Rat) / 4 ≤ q)),
      ← List.countP_eq_length_filter]
    apply List.countP_congr
    intro p _
    cases calculate_relevance_score p.title p.abstract c <;> decide
  have hmed : (screenBatchWf c n papers).batch_statistics.medium_relevance =
      (papers.filter (fun p =>
        calculate_relevance_score p.title p.abstract c == RelevanceScore.MEDIUM)).length := by
    show (screenBatchWf c n papers).papers.countP (fun r =>
        decide ((1 : Rat) / 2 ≤ r.relevance_score ∧ r.relevance_score < (3 : Rat) / 4)) = _
    rw [screenBatchWf_countP c n papers
        (fun q => decide ((1 : Rat) / 2 ≤ q ∧ q < (3 : Rat) / 4)),
      ← List.countP_eq_length_filter]
    apply List.countP_congr
    intro p _
    cases calculate_relevance_score p.title p.abstract c <;> decide
  have hlow : (screenBatchWf c n papers).batch_statistics.low_relevance =
      (papers.filter (fun p =>
        calculate_relevance_score p.title p.abstract c == RelevanceScore.LOW)).length := by
    show (screenBatchWf c n papers).papers.countP (fun r =>
        decide ((1 : Rat) / 4 ≤ r.relevance_score ∧ r.relevance_score < (1 : Rat) / 2)) = _
    rw [screenBatchWf_countP c n papers
        (fun q => decide ((1 : Rat) / 4 ≤ q ∧ q < (1 : Rat) / 2)),
      ← List.countP_eq_length_filter]
    apply List.countP_congr
    intro p _
    cases calculate_relevance_score p.title p.abstract c <;> decide
  have hirr : (screenBatchWf c n papers).batch_statistics.irrelevant =
      (papers.filter (fun p =>
        calculate_relevance_score p.title p.abstract c == RelevanceScore.IRRELEVANT)).length := by
    show (screenBatchWf c n papers).papers.countP
        (fun r => decide (r.relevance_score < (1 : Rat) / 4)) = _
    rw [screenBatchWf_countP c n papers (fun q => decide (q < (1 : Rat) / 4)),
      ← List.countP_eq_length_filter]
    apply List.countP_congr
    intro p _
    cases calculate_relevance_score p.title p.abstract c <;> decide
  refine ⟨htot, hhigh, hmed, hlow, hirr, ?_⟩
  rw [hhigh, hmed, hlow, hirr, ← List.countP_eq_length_filter,
    ← List.countP_eq_length_filter, ← List.countP_eq_length_filter,
    ← List.countP_eq_length_filter]
  apply countP_four_partition
  intro p _
  cases calculate_relevance_score p.title p.abstract c <;> decide

/-- C9: for every screened batch, the four batch-statistics counts
computed from the normalised relevance scores are exactly the numbers of
batch documents whose tier is HIGH, MEDIUM, LOW and IRRELEVANT
respectively, and they sum to the batch size. -/
theorem c9_batch_statistics (papers : List Paper) (c : ScreeningCriteria) (bs : Nat) :
    screen_abstracts (papers.map Paper.toRaw) c bs =
      Except.ok (screenAbstractsWf papers c bs)
    ∧ List.Forall₂ (fun (b : ScreeningBatch) (ch : List Paper) =>
        b.batch_statistics.total_papers = ch.length
        ∧ b.batch_statistics.high_relevance = (ch.filter (fun p =>
            calculate_relevance_score p.title p.abstract c == RelevanceScore.HIGH)).length
        ∧ b.batch_statistics.medium_relevance = (ch.filter (fun p =>
            calculate_relevance_score p.title p.abstract c == RelevanceScore.MEDIUM)).length
        ∧ b.batch_statistics.low_relevance = (ch.filter (fun p =>
            calculate_relevance_score p.title p.abstract c == RelevanceScore.LOW)).length
        ∧ b.batch_statistics.irrelevant = (ch.filter (fun p =>
            calculate_relevance_score p.title p.abstract c == RelevanceScore.IRRELEVANT)).length
        ∧ b.batch_statistics.high_relevance + b.batch_statistics.medium_relevance
            + b.batch_statistics.low_relevance + b.batch_statistics.irrelevant = ch.length)
      (screenAbstractsWf papers c bs) (chunkList bs papers) := by
  refine ⟨screen_abstracts_wf papers c bs, ?_⟩
  unfold screenAbstractsWf
  exact screenChunksWf_forall2 c _ (fun n ch => screenBatchWf_stats c n ch) 1
    (chunkList bs papers)

end ResearchHelper
